import Mathlib

/-
Verification development for the annotation command engine of the
pdf_reader_9000 repository.

Embedded source files:
  * src/core/pdf_document.py  — the annotation store (`PDFDocument`)
  * src/core/command.py       — `HighlightCommand`, `CommandHistory`
  * src/ui/main_window.py     — the selection-to-rectangle grouping loop
    of `highlight_selected_text` (lines 334-380)

Modelling conventions:
  * Python floats are modelled as rationals; every arithmetic step the
    claims exercise (adding or subtracting 1, halving a height of 10,
    dividing by a zoom factor) is exact in binary floating point for the
    values involved, so the rational model is faithful there.
  * The PyMuPDF document handle (`self.doc`), the extracted page text and
    all Qt display state are external resources: `PDFDocument` is reduced
    to its `annotations` list, which is the only state the claims quantify
    over.  The removal method's `try` block touches only that external
    display state, so with a valid index it succeeds.
  * Methods that mutate `self` are embedded as functions returning the
    updated value together with the Python return value.
-/

/-- Axis-aligned rectangle: the embedding of `fitz.Rect` as the repository
uses it (plain storage of four coordinates, no normalisation). -/
structure Rect where
  x0 : ℚ
  y0 : ℚ
  x1 : ℚ
  y1 : ℚ
deriving DecidableEq, Repr

/-- RGBA color with 8-bit channels: the embedding of `QColor` as the code
uses it (the 4-int constructor and the channel accessors). -/
structure Color where
  r : ℕ
  g : ℕ
  b : ℕ
  a : ℕ
deriving DecidableEq, Repr

/-- One entry of `PDFDocument.annotations`: the dict built in
`add_highlight` (src/core/pdf_document.py lines 39-44).  Its `'type'` key is
the constant `'highlight'` and is omitted from the embedding. -/
structure AnnRecord where
  rect : Rect
  page : ℕ
  color : Color
deriving DecidableEq, Repr

instance : Inhabited AnnRecord := ⟨⟨⟨0, 0, 0, 0⟩, 0, ⟨0, 0, 0, 0⟩⟩⟩

/-- The annotation store: `PDFDocument` (src/core/pdf_document.py) reduced
to its `annotations` list. -/
structure PDFDocument where
  annotations : List AnnRecord
deriving DecidableEq, Repr

/-- The in-place padding `rect.x0 -= 1; rect.x1 += 1` applied by
`add_highlight` (src/core/pdf_document.py lines 35-37). -/
def padRect (r : Rect) : Rect :=
  { r with x0 := r.x0 - 1, x1 := r.x1 + 1 }

/-- Embedding of `PDFDocument.add_highlight` (src/core/pdf_document.py lines
30-45): pad the rectangle by 1 unit on each side in x, then append the
record.  The second component is the Python return value: the method body
has no `return` statement, so it returns `None`; because the specification
expects the new record together with its index here, that return value is
embedded at type `Option (AnnRecord × ℕ)`, and the source yields `none`.
The in-place mutation of the caller's rectangle object is reflected at the
call site (see `HighlightCommand.execute`). -/
def PDFDocument.add_highlight (doc : PDFDocument) (rect : Rect)
    (page_num : ℕ) (color : Color) : PDFDocument × Option (AnnRecord × ℕ) :=
  (⟨doc.annotations ++ [{ rect := padRect rect, page := page_num, color := color }]⟩,
   none)

/-- Embedding of the store's removal method (src/core/pdf_document.py lines
47-68): with an in-range index the entry is popped and the method returns
`True` (the `try` block only touches external PyMuPDF display state);
otherwise the list is unchanged and it returns `False`. -/
def PDFDocument.removeAnn (doc : PDFDocument) (index : ℤ) :
    PDFDocument × Bool :=
  if 0 ≤ index ∧ index < (doc.annotations.length : ℤ) then
    (⟨doc.annotations.eraseIdx index.toNat⟩, true)
  else (doc, false)

/-- Filter used when materialising a page (src/core/pdf_document.py line 76):
the records whose `'page'` equals the given page, in store order. -/
def recordsForPage (doc : PDFDocument) (page_num : ℕ) : List AnnRecord :=
  doc.annotations.filter (fun a => a.page == page_num)

/-- The concrete command of src/core/command.py (lines 27-106).  The
`pdf_doc` back-reference is passed explicitly to `execute`/`undo` instead of
being stored. -/
structure HighlightCommand where
  rects : List Rect
  page_num : ℕ
  color : Color
  annotation_indices : List ℤ
  removed_annotations : List AnnRecord
deriving DecidableEq, Repr

instance : Inhabited HighlightCommand := ⟨⟨[], 0, ⟨0, 0, 0, 0⟩, [], []⟩⟩

/-- Python `list.insert(i, x)`: a negative index counts from the end
(clamped at 0), an index past the end appends. -/
def pyInsert {α : Type} (l : List α) (i : ℤ) (x : α) : List α :=
  if i < 0 then List.insertIdx (max 0 ((l.length : ℤ) + i)).toNat x l
  else List.insertIdx (min i.toNat l.length) x l

/-- The redo branch of `HighlightCommand.execute` (src/core/command.py lines
38-46): walk `zip(annotation_indices, removed_annotations)`; an index that
is `<= len(annotations)` is used for `insert`, otherwise the record is
appended.  Indices are integers, never `None`, in every state the code
builds, so the `is not None` test holds; the rebinding of the loop variable
on line 45 does not write back into the list and is dropped. -/
def restoreLoop : List AnnRecord → List (ℤ × AnnRecord) → List AnnRecord
  | anns, [] => anns
  | anns, (idx, a) :: rest =>
    if idx ≤ (anns.length : ℤ) then restoreLoop (pyInsert anns idx a) rest
    else restoreLoop (anns ++ [a]) rest

/-- The first-execution branch of `HighlightCommand.execute`
(src/core/command.py lines 47-51): `add_highlight` once per rectangle, then
append `len(annotations) - 1` to the index list. -/
def execLoop (page_num : ℕ) (color : Color) :
    PDFDocument → List Rect → List ℤ → PDFDocument × List ℤ
  | doc, [], idxs => (doc, idxs)
  | doc, r :: rest, idxs =>
    let doc2 := (doc.add_highlight r page_num color).1
    execLoop page_num color doc2 rest (idxs ++ [(doc2.annotations.length : ℤ) - 1])

/-- Embedding of `HighlightCommand.execute` (src/core/command.py lines
36-52).  In the first-execution branch Python pads each element of
`self.rects` in place inside `add_highlight`, so afterwards the command's
own rectangles carry the padding: this is the `rects.map padRect` update. -/
def HighlightCommand.execute (cmd : HighlightCommand) (doc : PDFDocument) :
    HighlightCommand × PDFDocument × Bool :=
  if cmd.removed_annotations ≠ [] then
    ({ cmd with removed_annotations := [] },
     ⟨restoreLoop doc.annotations (cmd.annotation_indices.zip cmd.removed_annotations)⟩,
     true)
  else
    let r := execLoop cmd.page_num cmd.color doc cmd.rects cmd.annotation_indices
    ({ cmd with rects := cmd.rects.map padRect, annotation_indices := r.2 },
     r.1, true)

/-- The loop of `HighlightCommand.undo` (src/core/command.py lines 60-65)
over the reversed index list: an in-range index has its record prepended to
the removed list and popped from the store; an out-of-range index is passed
over by the `if` guard; a failing store removal stops the loop with
`False`. -/
def undoLoop : List AnnRecord → List AnnRecord → List ℤ →
    List AnnRecord × List AnnRecord × Bool
  | anns, removed, [] => (anns, removed, true)
  | anns, removed, idx :: rest =>
    if 0 ≤ idx ∧ idx < (anns.length : ℤ) then
      let a := anns.getD idx.toNat default
      let r := PDFDocument.removeAnn ⟨anns⟩ idx
      if r.2 then undoLoop r.1.annotations (a :: removed) rest
      else (r.1.annotations, a :: removed, false)
    else undoLoop anns removed rest

/-- Embedding of `HighlightCommand.undo` (src/core/command.py lines 54-66):
empty `annotation_indices` returns `False` untouched; otherwise
`removed_annotations` is reset and the reversed index list is walked. -/
def HighlightCommand.undo (cmd : HighlightCommand) (doc : PDFDocument) :
    HighlightCommand × PDFDocument × Bool :=
  if cmd.annotation_indices = [] then (cmd, doc, false)
  else
    let r := undoLoop doc.annotations [] cmd.annotation_indices.reverse
    ({ cmd with removed_annotations := r.2.1 }, ⟨r.1⟩, r.2.2)

/-- The serialised form of one command (src/core/command.py lines 68-86):
kind tag, the rectangles' coordinate quadruples, page, color channels, and
the current `annotation_indices`.  `removed_annotations` has no key in this
dict. -/
structure CommandDict where
  type : String
  rects : List Rect
  page_num : ℕ
  color : Color
  annotation_indices : List ℤ
deriving DecidableEq, Repr

/-- Embedding of `HighlightCommand.to_dict` (src/core/command.py lines
68-86). -/
def HighlightCommand.to_dict (cmd : HighlightCommand) : CommandDict :=
  ⟨"highlight", cmd.rects, cmd.page_num, cmd.color, cmd.annotation_indices⟩

/-- Embedding of `HighlightCommand.from_dict` (src/core/command.py lines
88-106): the constructor is called with the deserialised rectangles, page
and color — which leaves `removed_annotations` empty — and then only
`annotation_indices` is overwritten from the data. -/
def HighlightCommand.from_dict (data : CommandDict) : HighlightCommand :=
  { rects := data.rects
    page_num := data.page_num
    color := data.color
    annotation_indices := data.annotation_indices
    removed_annotations := [] }

/-- The two bounded stacks of src/core/command.py lines 108-112.  The list
end is the stack top (Python `append`/`pop()`). -/
structure CommandHistory where
  undo_stack : List HighlightCommand
  redo_stack : List HighlightCommand
  max_stack_size : ℕ
deriving DecidableEq, Repr

/-- Embedding of `CommandHistory.will_lose_redo_history`
(src/core/command.py lines 114-116). -/
def CommandHistory.will_lose_redo_history (h : CommandHistory) : Bool :=
  decide (0 < h.redo_stack.length)

/-- The push-then-evict step shared by all three history operations
(src/core/command.py lines 121-124, 139-142, 153-156): append, then
`pop(0)` once if the cap is exceeded. -/
def pushCap (l : List HighlightCommand) (c : HighlightCommand) (m : ℕ) :
    List HighlightCommand :=
  let l2 := l ++ [c]
  if l2.length > m then l2.drop 1 else l2

/-- Embedding of `CommandHistory.execute` (src/core/command.py lines
118-130): run the command; on success push it (capped) and clear the redo
stack unconditionally (the console message before clearing is log output
only); on failure leave everything unchanged. -/
def CommandHistory.execute (h : CommandHistory) (doc : PDFDocument)
    (cmd : HighlightCommand) : CommandHistory × PDFDocument × Bool :=
  let r := cmd.execute doc
  if r.2.2 then
    ({ undo_stack := pushCap h.undo_stack r.1 h.max_stack_size
       redo_stack := []
       max_stack_size := h.max_stack_size }, r.2.1, true)
  else (h, doc, false)

/-- Embedding of `CommandHistory.undo` (src/core/command.py lines 132-144):
pop the undo top; on success push it (capped) onto the redo stack; on
failure the command is dropped from both stacks and the store keeps whatever
the partial undo did. -/
def CommandHistory.undo (h : CommandHistory) (doc : PDFDocument) :
    CommandHistory × PDFDocument × Bool :=
  if h.undo_stack = [] then (h, doc, false)
  else
    let cmd := h.undo_stack.getLastD default
    let us := h.undo_stack.dropLast
    let r := cmd.undo doc
    if r.2.2 then
      ({ undo_stack := us
         redo_stack := pushCap h.redo_stack r.1 h.max_stack_size
         max_stack_size := h.max_stack_size }, r.2.1, true)
    else
      ({ undo_stack := us
         redo_stack := h.redo_stack
         max_stack_size := h.max_stack_size }, r.2.1, false)

/-- Embedding of `CommandHistory.redo` (src/core/command.py lines 146-158):
pop the redo top, re-execute it; on success push it (capped) onto the undo
stack; the redo stack is not cleared here. -/
def CommandHistory.redo (h : CommandHistory) (doc : PDFDocument) :
    CommandHistory × PDFDocument × Bool :=
  if h.redo_stack = [] then (h, doc, false)
  else
    let cmd := h.redo_stack.getLastD default
    let rs := h.redo_stack.dropLast
    let r := cmd.execute doc
    if r.2.2 then
      ({ undo_stack := pushCap h.undo_stack r.1 h.max_stack_size
         redo_stack := rs
         max_stack_size := h.max_stack_size }, r.2.1, true)
    else
      ({ undo_stack := h.undo_stack
         redo_stack := rs
         max_stack_size := h.max_stack_size }, r.2.1, false)

/-- The serialised history (src/core/command.py lines 165-171). -/
structure HistoryDict where
  undo_stack : List CommandDict
  redo_stack : List CommandDict
  max_stack_size : ℕ
deriving DecidableEq, Repr

/-- Embedding of `CommandHistory.to_dict` (src/core/command.py lines
165-171). -/
def CommandHistory.to_dict (h : CommandHistory) : HistoryDict :=
  ⟨h.undo_stack.map HighlightCommand.to_dict,
   h.redo_stack.map HighlightCommand.to_dict,
   h.max_stack_size⟩

/-- Stack reconstruction of `load_from_dict` (src/core/command.py lines
178-188): entries whose kind tag is `'highlight'` are rebuilt with
`from_dict`, all other entries are skipped. -/
def loadStack (l : List CommandDict) : List HighlightCommand :=
  l.filterMap (fun d =>
    if d.type = "highlight" then some (HighlightCommand.from_dict d) else none)

/-- Embedding of `CommandHistory.load_from_dict` (src/core/command.py lines
173-188): the history is cleared and rebuilt from the dict (`data.get` with
defaults always finds the keys that `to_dict` wrote). -/
def CommandHistory.load_from_dict (data : HistoryDict) : CommandHistory :=
  { undo_stack := loadStack data.undo_stack
    redo_stack := loadStack data.redo_stack
    max_stack_size := data.max_stack_size }

/-- One character hit-box of `page_widget.text_blocks`: the `'rect'` dict
with keys `x`, `y`, `width`, `height` built in
src/ui/pdf_display_widget.py lines 197-201 (screen coordinates at the
current zoom). -/
structure Block where
  x : ℚ
  y : ℚ
  width : ℚ
  height : ℚ
deriving DecidableEq, Repr

/-- Python `int()` on a float: truncation toward zero. -/
def pyInt (q : ℚ) : ℤ := if q < 0 then -⌊-q⌋ else ⌊q⌋

/-- Python `min` over a non-empty list (the empty case is unreachable at the
call sites, which guard on a non-empty line). -/
def listMin : List ℚ → ℚ
  | [] => 0
  | x :: xs => xs.foldl min x

/-- Python `max` over a non-empty list. -/
def listMax : List ℚ → ℚ
  | [] => 0
  | x :: xs => xs.foldl max x

/-- The right edge `r['x'] + r['width']` of a hit-box. -/
def Block.xend (b : Block) : ℚ := b.x + b.width

/-- The rectangle flushed for one accumulated line
(src/ui/main_window.py lines 355-363 and 372-380): min x to max x+width over
the line's boxes, the first box's y and height, every coordinate divided by
the zoom factor. -/
def lineRect (line : List Block) (zoom : ℚ) : Rect :=
  match line with
  | [] => ⟨0, 0, 0, 0⟩
  | b :: _ =>
    ⟨listMin (line.map Block.x) / zoom, b.y / zoom,
     listMax (line.map Block.xend) / zoom, (b.y + b.height) / zoom⟩

/-- The grouping loop of `highlight_selected_text` (src/ui/main_window.py
lines 344-380): a box starts a new line when there is no current line anchor
or when `abs(int(rect.y) - current_y) > rect.height * 0.5`; flushing a
non-empty current line appends its rectangle; the final line is flushed
after the loop. -/
def groupRun (zoom : ℚ) : List Block → List Block → Option ℤ → List Rect → List Rect
  | [], curLine, _, acc =>
    if curLine = [] then acc else acc ++ [lineRect curLine zoom]
  | b :: rest, curLine, curY, acc =>
    let y := pyInt b.y
    let isBreak : Bool :=
      match curY with
      | none => true
      | some cy => decide ((((y - cy).natAbs : ℚ)) > b.height * (1 / 2))
    if isBreak then
      let acc2 := if curLine = [] then acc else acc ++ [lineRect curLine zoom]
      groupRun zoom rest [b] (some y) acc2
    else groupRun zoom rest (curLine ++ [b]) curY acc

/-- The selection-to-rectangles computation of `highlight_selected_text`
(src/ui/main_window.py lines 334-380): `start_idx`/`end_idx` are the
min/max of the two selection indices, and the loop
`for i in range(start_idx, end_idx + 1)` with its `i >= len(text_blocks)`
break visits exactly `(blocks.take (end_idx + 1)).drop start_idx`. -/
def highlightRects (blocks : List Block) (selStart selEnd : ℕ) (zoom : ℚ) :
    List Rect :=
  let s := min selStart selEnd
  let e := max selStart selEnd
  groupRun zoom ((blocks.take (e + 1)).drop s) [] none []

/- Characterisation helpers used in the theorem statements. -/

/-- Indices `n, n+1, ..., n+k-1` as integers: the positions recorded by a
first execution that starts with `n` annotations in the store. -/
def intRange (n k : ℕ) : List ℤ := (List.range' n k).map fun j : ℕ => (j : ℤ)

/-- The record that `add_highlight` appends for a rectangle of a given
command. -/
def mkRec (page_num : ℕ) (color : Color) (r : Rect) : AnnRecord :=
  { rect := padRect r, page := page_num, color := color }

/-- The records a first execution of a command appends, in order. -/
def newRecords (cmd : HighlightCommand) : List AnnRecord :=
  cmd.rects.map (mkRec cmd.page_num cmd.color)

/-- The command state after a first execution that found `n` annotations in
the store: rectangles padded in place, the new positions appended to the
index list. -/
def appliedAt (n : ℕ) (cmd : HighlightCommand) : HighlightCommand :=
  { cmd with
    rects := cmd.rects.map padRect
    annotation_indices := cmd.annotation_indices ++ intRange n cmd.rects.length }

/-- The applied command states produced by executing a list of fresh
commands in order, starting from a store of `n` annotations. -/
def appliedStack (n : ℕ) : List HighlightCommand → List HighlightCommand
  | [] => []
  | c :: rest => appliedAt n c :: appliedStack (n + c.rects.length) rest

/-- Sequential submission of commands through `CommandHistory.execute`. -/
def execAll : CommandHistory × PDFDocument → List HighlightCommand →
    CommandHistory × PDFDocument
  | s, [] => s
  | (h, d), c :: rest =>
    let r := CommandHistory.execute h d c
    execAll (r.1, r.2.1) rest

/-- One user-level history operation. -/
inductive HistOp where
  | exec (c : HighlightCommand)
  | undo
  | redo
deriving DecidableEq, Repr

/-- Apply one history operation, keeping the history and the store. -/
def applyOp (s : CommandHistory × PDFDocument) : HistOp → CommandHistory × PDFDocument
  | .exec c =>
    let r := CommandHistory.execute s.1 s.2 c
    (r.1, r.2.1)
  | .undo =>
    let r := CommandHistory.undo s.1 s.2
    (r.1, r.2.1)
  | .redo =>
    let r := CommandHistory.redo s.1 s.2
    (r.1, r.2.1)

/-- Apply a sequence of history operations. -/
def applyOps (s : CommandHistory × PDFDocument) (ops : List HistOp) :
    CommandHistory × PDFDocument :=
  ops.foldl applyOp s

/- Basic lemmas about the embedded operations. -/

/-- Getting the element just after a prefix of known length. -/
theorem getD_snoc {α : Type} (l : List α) (a d : α) :
    (l ++ [a]).getD l.length d = a := by
  induction l with
  | nil => rfl
  | cons x xs ih => simp

/-- Erasing the element just after a prefix of known length. -/
theorem eraseIdx_snoc {α : Type} (l : List α) (a : α) :
    (l ++ [a]).eraseIdx l.length = l := by
  induction l with
  | nil => rfl
  | cons x xs ih => simpa [List.eraseIdx] using ih

/-- Unfolding of `intRange` at a successor count. -/
theorem intRange_succ (n k : ℕ) :
    intRange n (k + 1) = (n : ℤ) :: intRange (n + 1) k := by
  simp [intRange, List.range'_succ]

/-- Unfolding of `intRange` from the right. -/
theorem intRange_concat (n k : ℕ) :
    intRange n (k + 1) = intRange n k ++ [((n + k : ℕ) : ℤ)] := by
  simp [intRange, List.range'_concat]

/-- Length of `intRange`. -/
theorem intRange_length (n k : ℕ) : (intRange n k).length = k := by
  rw [intRange, List.length_map, List.length_range']

/-- The method `HighlightCommand.execute` has no failure path: both branches return
`True`. -/
theorem execute_true (cmd : HighlightCommand) (doc : PDFDocument) :
    (cmd.execute doc).2.2 = true := by
  rw [HighlightCommand.execute]
  split <;> rfl

/-- Closed form of the first-execution loop: the padded records are appended
in order and the fresh positions are appended to the index accumulator. -/
theorem execLoop_spec (page_num : ℕ) (color : Color) (rects : List Rect) :
    ∀ (doc : PDFDocument) (idxs : List ℤ),
    execLoop page_num color doc rects idxs =
      (⟨doc.annotations ++ rects.map (mkRec page_num color)⟩,
       idxs ++ intRange doc.annotations.length rects.length) := by
  induction rects with
  | nil =>
    intro doc idxs
    simp [execLoop, intRange]
  | cons r rest ih =>
    intro doc idxs
    rw [execLoop]
    show execLoop page_num color (PDFDocument.mk (doc.annotations ++ [mkRec page_num color r]))
        rest (idxs ++ [((doc.annotations ++ [mkRec page_num color r]).length : ℤ) - 1]) = _
    rw [ih]
    have h1 : ((doc.annotations ++ [mkRec page_num color r]).length : ℤ) - 1
        = (doc.annotations.length : ℤ) := by simp
    have h2 : (doc.annotations ++ [mkRec page_num color r]).length
        = doc.annotations.length + 1 := by simp
    rw [h1, h2, List.map_cons, List.length_cons, intRange_succ]
    simp [List.append_assoc]

/-- Closed form of `HighlightCommand.execute` when the pending snapshot is
empty (a first execution): rectangles are padded in place, the records are
appended to the store, and the new positions are appended to
`annotation_indices`. -/
theorem execute_of_removed_empty (cmd : HighlightCommand) (doc : PDFDocument)
    (h : cmd.removed_annotations = []) :
    cmd.execute doc =
      ({ cmd with
          rects := cmd.rects.map padRect
          annotation_indices :=
            cmd.annotation_indices ++ intRange doc.annotations.length cmd.rects.length },
       ⟨doc.annotations ++ newRecords cmd⟩, true) := by
  rw [HighlightCommand.execute, if_neg (by simp [h])]
  rw [execLoop_spec]
  simp [newRecords]

/-- Closed form of `HighlightCommand.execute` when the pending snapshot is
non-empty (a redo): the snapshot records are walked through `restoreLoop`
and the snapshot is cleared. -/
theorem execute_of_removed_nonempty (cmd : HighlightCommand) (doc : PDFDocument)
    (h : cmd.removed_annotations ≠ []) :
    cmd.execute doc =
      ({ cmd with removed_annotations := [] },
       ⟨restoreLoop doc.annotations (cmd.annotation_indices.zip cmd.removed_annotations)⟩,
       true) := by
  rw [HighlightCommand.execute, if_pos h]

/-- The store removal succeeds on an in-range index and pops exactly that
entry. -/
theorem removeAnn_valid (l : List AnnRecord) (i : ℤ)
    (h : 0 ≤ i ∧ i < (l.length : ℤ)) :
    PDFDocument.removeAnn ⟨l⟩ i = (⟨l.eraseIdx i.toNat⟩, true) := by
  rw [PDFDocument.removeAnn, if_pos h]

/-- One undo-loop step at the index of the last element: the element is
removed from the store and prepended to the removed accumulator. -/
theorem undoLoop_snoc_step (pre : List AnnRecord) (a : AnnRecord)
    (acc : List AnnRecord) (rest : List ℤ) :
    undoLoop (pre ++ [a]) acc ((pre.length : ℤ) :: rest)
      = undoLoop pre (a :: acc) rest := by
  have hc : (0 : ℤ) ≤ (pre.length : ℤ) ∧
      (pre.length : ℤ) < ((pre ++ [a]).length : ℤ) := by
    refine ⟨Int.natCast_nonneg _, ?_⟩
    simp
  rw [undoLoop, if_pos hc]
  simp [removeAnn_valid _ _ hc, Int.toNat_natCast, getD_snoc, eraseIdx_snoc]

/-- The undo loop over the reversed positions of a block of trailing
records removes exactly that block, rebuilding it in original order in the
removed accumulator, and reports success. -/
theorem undoLoop_spec (base : List AnnRecord) (recs : List AnnRecord) :
    ∀ acc : List AnnRecord,
    undoLoop (base ++ recs) acc (intRange base.length recs.length).reverse
      = (base, recs ++ acc, true) := by
  induction recs using List.reverseRecOn with
  | nil =>
    intro acc
    simp [undoLoop, intRange]
  | append_singleton l a ih =>
    intro acc
    have hlen : (l ++ [a]).length = l.length + 1 := by simp
    rw [hlen, intRange_concat, List.reverse_append]
    simp only [List.reverse_cons, List.reverse_nil, List.nil_append,
      List.singleton_append]
    rw [← List.append_assoc]
    have hidx : ((base.length + l.length : ℕ) : ℤ) = ((base ++ l).length : ℤ) := by
      simp
    rw [hidx, undoLoop_snoc_step, ih (a :: acc)]
    simp

/-- The undo loop never reports failure: every index is either in range
(and the removal succeeds) or skipped. -/
theorem undoLoop_true (idxs : List ℤ) :
    ∀ (anns removed : List AnnRecord), (undoLoop anns removed idxs).2.2 = true := by
  induction idxs with
  | nil => intro anns removed; rfl
  | cons idx rest ih =>
    intro anns removed
    rw [undoLoop]
    by_cases hc : 0 ≤ idx ∧ idx < (anns.length : ℤ)
    · rw [if_pos hc]
      simp only [removeAnn_valid _ _ hc]
      exact ih _ _
    · rw [if_neg hc]
      exact ih _ _

/-- Closed form of `HighlightCommand.undo` for a command whose recorded
positions are exactly the trailing block of the store: the block is removed
and becomes the pending snapshot, in original order. -/
theorem undo_spec (cmd : HighlightCommand) (base recs : List AnnRecord)
    (hidx : cmd.annotation_indices = intRange base.length recs.length)
    (hne : recs ≠ []) :
    cmd.undo ⟨base ++ recs⟩ =
      ({ cmd with removed_annotations := recs }, ⟨base⟩, true) := by
  have hnonnil : cmd.annotation_indices ≠ [] := by
    rw [hidx]
    intro hcon
    apply hne
    have := congrArg List.length hcon
    rw [intRange_length] at this
    exact List.length_eq_zero.mp this
  rw [HighlightCommand.undo, if_neg hnonnil]
  simp only [hidx]
  rw [undoLoop_spec base recs]
  simp

/-- Closed form of the redo insertion loop when the recorded positions are
exactly the next free positions of the store: every record is appended in
order. -/
theorem restoreLoop_spec (recs : List AnnRecord) :
    ∀ anns : List AnnRecord,
    restoreLoop anns ((intRange anns.length recs.length).zip recs) = anns ++ recs := by
  induction recs with
  | nil =>
    intro anns
    simp [restoreLoop, intRange]
  | cons r rest ih =>
    intro anns
    rw [List.length_cons, intRange_succ, List.zip_cons_cons, restoreLoop,
      if_pos (le_refl ((anns.length : ℕ) : ℤ))]
    have hins : pyInsert anns (anns.length : ℤ) r = anns ++ [r] := by
      rw [pyInsert, if_neg (by simp)]
      simp [Int.toNat_natCast, List.insertIdx_length_self]
    rw [hins]
    simpa [List.append_assoc] using ih (anns ++ [r])

/-- C1: for every fresh `HighlightCommand` over a region list on a page with
a color, and every starting store state, running `execute()`, then `undo()`,
then `redo()` (a re-`execute`) leaves the store — and therefore its sequence
of records for that page, same regions, color and relative order — exactly
as it was immediately after the first `execute()`. -/
theorem c1_execute_undo_redo_roundtrip (doc : PDFDocument) (rects : List Rect)
    (page_num : ℕ) (color : Color) :
    let c0 : HighlightCommand := ⟨rects, page_num, color, [], []⟩
    let s1 := c0.execute doc
    let s2 := s1.1.undo s1.2.1
    let s3 := s2.1.execute s2.2.1
    s3.2.1.annotations = s1.2.1.annotations ∧
    recordsForPage s3.2.1 page_num = recordsForPage s1.2.1 page_num := by
  intro c0 s1 s2 s3
  rcases rects with _ | ⟨r0, rrest⟩
  · exact ⟨rfl, rfl⟩
  · have e1 : s1 = (⟨(r0 :: rrest).map padRect, page_num, color,
        intRange doc.annotations.length (r0 :: rrest).length, []⟩,
        ⟨doc.annotations ++ (r0 :: rrest).map (mkRec page_num color)⟩, true) := by
      show c0.execute doc = _
      rw [execute_of_removed_empty c0 doc rfl]
      rfl
    have e2 : s2 = (⟨(r0 :: rrest).map padRect, page_num, color,
        intRange doc.annotations.length (r0 :: rrest).length,
        (r0 :: rrest).map (mkRec page_num color)⟩,
        ⟨doc.annotations⟩, true) := by
      show s1.1.undo s1.2.1 = _
      rw [e1]
      show (⟨(r0 :: rrest).map padRect, page_num, color,
          intRange doc.annotations.length (r0 :: rrest).length, []⟩ :
          HighlightCommand).undo
          ⟨doc.annotations ++ (r0 :: rrest).map (mkRec page_num color)⟩ = _
      exact undo_spec _ doc.annotations ((r0 :: rrest).map (mkRec page_num color))
        (by simp) (by simp)
    have e3 : s3 = (⟨(r0 :: rrest).map padRect, page_num, color,
        intRange doc.annotations.length (r0 :: rrest).length, []⟩,
        ⟨doc.annotations ++ (r0 :: rrest).map (mkRec page_num color)⟩, true) := by
      show s2.1.execute s2.2.1 = _
      rw [e2]
      show (⟨(r0 :: rrest).map padRect, page_num, color,
          intRange doc.annotations.length (r0 :: rrest).length,
          (r0 :: rrest).map (mkRec page_num color)⟩ :
          HighlightCommand).execute ⟨doc.annotations⟩ = _
      rw [execute_of_removed_nonempty _ _ (by simp)]
      have hlen : (r0 :: rrest).length
          = ((r0 :: rrest).map (mkRec page_num color)).length := by simp
      rw [hlen, restoreLoop_spec]
    refine ⟨?_, ?_⟩
    · rw [e3, e1]
    · rw [e3, e1]

/- Concrete sample values used by the counterexamples and witnesses. -/

/-- Sample selection rectangle. -/
def sRect : Rect := ⟨0, 0, 10, 10⟩

/-- Sample highlight color. -/
def sColor : Color := ⟨255, 255, 0, 255⟩

/-- Sample fresh one-region command on page 0. -/
def sCmd0 : HighlightCommand := ⟨[sRect], 0, sColor, [], []⟩

/-- The sample command after its first execution on an empty store. -/
def sApplied : HighlightCommand := (sCmd0.execute ⟨[]⟩).1

/-- The store after the sample command's first execution. -/
def sDocApplied : PDFDocument := (sCmd0.execute ⟨[]⟩).2.1

/-- The sample command after a successful undo (Reversed state: its pending
snapshot holds the removed record). -/
def sReversed : HighlightCommand := (sApplied.undo sDocApplied).1

/-- The store after the undo. -/
def sDocReversed : PDFDocument := (sApplied.undo sDocApplied).2.1

/-- The Reversed sample command serialised and deserialised. -/
def sReloaded : HighlightCommand := HighlightCommand.from_dict sReversed.to_dict

/-- C2 counterexample: a command that was executed and then successfully
undone (its snapshot is non-empty) comes back from
`from_dict(to_dict(..))` with an empty snapshot — not in the Reversed
state — and executing the reconstruction does not rebuild the store that
the first execution produced (it re-pads the already padded rectangle and
appends a fresh record instead of reinserting the removed one). -/
theorem c2_roundtrip_counterexample :
    sReversed.removed_annotations ≠ [] ∧
    sReloaded.removed_annotations = [] ∧
    (sReloaded.execute sDocReversed).2.1.annotations ≠ sDocApplied.annotations := by
  refine ⟨by decide, rfl, ?_⟩
  simp [sReloaded, sReversed, sApplied, sDocApplied, sDocReversed, sCmd0, sRect,
    sColor, HighlightCommand.execute, HighlightCommand.undo,
    HighlightCommand.from_dict, HighlightCommand.to_dict, execLoop, undoLoop,
    restoreLoop, pyInsert, PDFDocument.add_highlight, PDFDocument.removeAnn,
    padRect]

/-- C2 amended: serialisation does not carry the pending snapshot, so the
reconstruction of any command — Reversed ones included — has an empty
`removed_annotations`; `execute()` on the reconstruction therefore takes the
first-execution branch: it appends freshly padded records for the
rectangles and extends `annotation_indices`, instead of reinserting the
previously removed records. -/
theorem c2_amended_from_dict_drops_snapshot (cmd : HighlightCommand)
    (doc : PDFDocument) :
    (HighlightCommand.from_dict cmd.to_dict).removed_annotations = [] ∧
    ((HighlightCommand.from_dict cmd.to_dict).execute doc).2.1.annotations
      = doc.annotations ++ cmd.rects.map (mkRec cmd.page_num cmd.color) ∧
    ((HighlightCommand.from_dict cmd.to_dict).execute doc).1.annotation_indices
      = cmd.annotation_indices ++ intRange doc.annotations.length cmd.rects.length := by
  refine ⟨rfl, ?_, ?_⟩
  · rw [execute_of_removed_empty (HighlightCommand.from_dict cmd.to_dict) doc rfl]
    rfl
  · rw [execute_of_removed_empty (HighlightCommand.from_dict cmd.to_dict) doc rfl]
    rfl

/-- Command whose recorded positions contain the out-of-range index 5. -/
def c3cmd : HighlightCommand := ⟨[⟨0, 0, 1, 1⟩], 0, sColor, [0, 5], []⟩

/-- One-record store, so index 5 is invalid. -/
def c3doc : PDFDocument := ⟨[⟨⟨0, 0, 1, 1⟩, 0, sColor⟩]⟩

/-- C3 counterexample: `undo()` on a command whose non-empty index list
contains the invalid index 5 (the store holds a single record) returns
`True`, skipping the invalid index and continuing, instead of aborting with
`False`. -/
theorem c3_skip_counterexample :
    (5 : ℤ) ∈ c3cmd.annotation_indices ∧
    ¬ (0 ≤ (5 : ℤ) ∧ (5 : ℤ) < (c3doc.annotations.length : ℤ)) ∧
    c3cmd.annotation_indices ≠ [] ∧
    (c3cmd.undo c3doc).2.2 = true :=
  ⟨by decide, by decide, by decide, rfl⟩

/-- C3 amended: `undo()` does not abort on an out-of-range index — the loop
guard simply skips it and continues — and it reports success whenever
`annotation_indices` is non-empty (the store removal always succeeds on an
in-range index). -/
theorem c3_amended_undo_reports_success (cmd : HighlightCommand)
    (doc : PDFDocument) (h : cmd.annotation_indices ≠ []) :
    (cmd.undo doc).2.2 = true := by
  rw [HighlightCommand.undo, if_neg h]
  exact undoLoop_true _ _ _

/-- Witness for the amended C3 theorem at the concrete command with an
invalid recorded index. -/
theorem c3_amended_witness :
    c3cmd.annotation_indices ≠ [] ∧ (c3cmd.undo c3doc).2.2 = true :=
  ⟨by decide, c3_amended_undo_reports_success c3cmd c3doc (by decide)⟩

/-- A command reconstructed by `from_dict` with non-empty serialised
`annotation_indices`. -/
def c4cmd : HighlightCommand :=
  HighlightCommand.from_dict ⟨"highlight", [⟨0, 0, 4, 4⟩], 0, sColor, [0]⟩

/-- A store holding one record when the reconstructed command is executed. -/
def c4doc : PDFDocument := ⟨[⟨⟨5, 5, 6, 6⟩, 0, sColor⟩]⟩

/-- C4 counterexample: executing a `from_dict` reconstruction whose
serialised `annotation_indices` was non-empty succeeds but breaks the
claimed invariant: the command ends with 1 rectangle and 2 recorded
indices. -/
theorem c4_invariant_counterexample :
    c4cmd.annotation_indices ≠ [] ∧
    (c4cmd.execute c4doc).2.2 = true ∧
    (c4cmd.execute c4doc).1.rects.length = 1 ∧
    (c4cmd.execute c4doc).1.annotation_indices.length = 2 :=
  ⟨by decide, rfl, rfl, rfl⟩

/-- C4 amended: after a successful `execute()` the invariant
`len(rects) == len(annotation_indices)` with an empty pending snapshot holds
for a first execution of a command with no recorded indices, and for a redo
of a command whose index count matches its rectangle count; it does not
hold for a `from_dict` reconstruction with non-empty serialised indices,
where `execute()` appends `len(rects)` further indices. -/
theorem c4_amended_invariant (cmd : HighlightCommand) (doc : PDFDocument)
    (h : (cmd.removed_annotations = [] ∧ cmd.annotation_indices = []) ∨
         (cmd.removed_annotations ≠ [] ∧
          cmd.annotation_indices.length = cmd.rects.length)) :
    (cmd.execute doc).1.annotation_indices.length = (cmd.execute doc).1.rects.length ∧
    (cmd.execute doc).1.removed_annotations = [] := by
  rcases h with ⟨hrm, hidx⟩ | ⟨hrm, hlen⟩
  · rw [execute_of_removed_empty cmd doc hrm]
    exact ⟨by simp [hidx, intRange_length], by simp [hrm]⟩
  · rw [execute_of_removed_nonempty cmd doc hrm]
    exact ⟨by simp [hlen], rfl⟩

/-- Witness for the amended C4 theorem at a fresh concrete command. -/
theorem c4_amended_witness :
    (sCmd0.removed_annotations = [] ∧ sCmd0.annotation_indices = []) ∧
    ((sCmd0.execute ⟨[]⟩).1.annotation_indices.length
        = (sCmd0.execute ⟨[]⟩).1.rects.length ∧
     (sCmd0.execute ⟨[]⟩).1.removed_annotations = []) :=
  ⟨⟨rfl, rfl⟩, c4_amended_invariant sCmd0 ⟨[]⟩ (Or.inl ⟨rfl, rfl⟩)⟩

/-- C8 counterexample: `add_highlight` returns no value — its Python body
has no `return` statement, so the caller receives `None`, not the new
record with its index. -/
theorem c8_add_counterexample :
    ((⟨[]⟩ : PDFDocument).add_highlight ⟨0, 0, 10, 10⟩ 0 ⟨255, 255, 0, 255⟩).2
      = none := rfl

/-- C8 amended: `add_highlight` appends exactly one new record at the end of
the store, whose region is the given rectangle expanded by 1 unit on each
side in x (applied once, at creation), leaves every existing record
unchanged, and returns nothing — the new record sits at index
`len(annotations) - 1`, which is how the caller recovers it. -/
theorem c8_amended_add_appends (doc : PDFDocument) (r : Rect) (p : ℕ)
    (c : Color) :
    (doc.add_highlight r p c).1.annotations
      = doc.annotations ++
        [{ rect := { r with x0 := r.x0 - 1, x1 := r.x1 + 1 }, page := p, color := c }] ∧
    (doc.add_highlight r p c).1.annotations.length = doc.annotations.length + 1 ∧
    (doc.add_highlight r p c).1.annotations.take doc.annotations.length
      = doc.annotations := by
  refine ⟨rfl, by simp [PDFDocument.add_highlight], ?_⟩
  simp [PDFDocument.add_highlight, List.take_left]

/-- Length bound for the push-then-evict step: a stack within the cap stays
within the cap. -/
theorem pushCap_le (l : List HighlightCommand) (c : HighlightCommand) (m : ℕ)
    (h : l.length ≤ m) : (pushCap l c m).length ≤ m := by
  have hlen : (l ++ [c]).length = l.length + 1 := by simp
  simp only [pushCap]
  split
  · rw [List.length_drop, hlen]
    omega
  · next hng =>
    rw [hlen] at hng ⊢
    omega

/-- With a positive cap, the pushed command is on top of the stack after the
push-then-evict step. -/
theorem pushCap_getLast (l : List HighlightCommand) (c : HighlightCommand)
    (m : ℕ) (hm : 0 < m) : (pushCap l c m).getLast? = some c := by
  simp only [pushCap]
  split
  · next hgt =>
    cases l with
    | nil => simp at hgt; omega
    | cons x xs =>
      rw [List.cons_append, List.drop_one, List.tail_cons]
      exact List.getLast?_concat _
  · exact List.getLast?_concat _

/-- Closed form of `CommandHistory.execute` for highlight commands: the
command always succeeds, so the history always takes the success branch —
push (capped) onto the undo stack, clear the redo stack. -/
theorem history_execute_spec (h : CommandHistory) (doc : PDFDocument)
    (cmd : HighlightCommand) :
    CommandHistory.execute h doc cmd
      = (⟨pushCap h.undo_stack (cmd.execute doc).1 h.max_stack_size, [],
          h.max_stack_size⟩,
         (cmd.execute doc).2.1, true) := by
  rw [CommandHistory.execute]
  simp [execute_true]

/-- C10: `HighlightCommand.execute` returns `True` in every command and
store state — it has no failure path — so `CommandHistory.execute` with a
highlight command never takes its failure branch and (with a positive depth
cap) leaves the executed command on top of the undo stack. -/
theorem c10_execute_always_succeeds (cmd : HighlightCommand)
    (doc : PDFDocument) (h : CommandHistory) :
    (cmd.execute doc).2.2 = true ∧
    (CommandHistory.execute h doc cmd).2.2 = true ∧
    (0 < h.max_stack_size →
      (CommandHistory.execute h doc cmd).1.undo_stack.getLast?
        = some (cmd.execute doc).1) := by
  refine ⟨execute_true cmd doc, ?_, ?_⟩
  · rw [history_execute_spec]
  · intro hm
    rw [history_execute_spec]
    exact pushCap_getLast _ _ _ hm

/-- Witness for C10's capped-push conjunct at a concrete history. -/
theorem c10_witness :
    0 < (⟨[], [], 100⟩ : CommandHistory).max_stack_size ∧
    (CommandHistory.execute ⟨[], [], 100⟩ ⟨[]⟩ sCmd0).1.undo_stack.getLast?
      = some (sCmd0.execute ⟨[]⟩).1 :=
  ⟨by decide, (c10_execute_always_succeeds sCmd0 ⟨[]⟩ ⟨[], [], 100⟩).2.2 (by decide)⟩

/-- C5: whenever `CommandHistory.execute` succeeds, the redo stack is empty
afterwards and `will_lose_redo_history()` reports false, whatever the two
stacks held before. -/
theorem c5_execute_clears_redo (h : CommandHistory) (doc : PDFDocument)
    (cmd : HighlightCommand)
    (_hs : (CommandHistory.execute h doc cmd).2.2 = true) :
    (CommandHistory.execute h doc cmd).1.redo_stack = [] ∧
    (CommandHistory.execute h doc cmd).1.will_lose_redo_history = false := by
  rw [history_execute_spec]
  exact ⟨rfl, rfl⟩

/-- Witness for C5 at a history with one undo entry and a non-empty redo
stack. -/
theorem c5_witness :
    (CommandHistory.execute ⟨[sApplied], [sApplied], 100⟩ ⟨[]⟩ sCmd0).2.2 = true ∧
    (CommandHistory.execute ⟨[sApplied], [sApplied], 100⟩ ⟨[]⟩ sCmd0).1.redo_stack = [] ∧
    (CommandHistory.execute ⟨[sApplied], [sApplied], 100⟩ ⟨[]⟩
        sCmd0).1.will_lose_redo_history = false := by
  refine ⟨rfl, ?_⟩
  exact c5_execute_clears_redo ⟨[sApplied], [sApplied], 100⟩ ⟨[]⟩ sCmd0 rfl

/-- Serialising, reloading and re-serialising one stack of highlight
commands reproduces the serialised stack. -/
theorem loadStack_roundtrip (l : List HighlightCommand) :
    (loadStack (l.map HighlightCommand.to_dict)).map HighlightCommand.to_dict
      = l.map HighlightCommand.to_dict := by
  induction l with
  | nil => rfl
  | cons c t ih =>
    simp only [List.map_cons, loadStack, List.filterMap_cons] at ih ⊢
    have hc : (HighlightCommand.to_dict c).type = "highlight" := rfl
    rw [if_pos hc]
    simp only [List.map_cons, List.cons.injEq]
    exact ⟨rfl, by simpa using ih⟩

/-- C7: serialising a `CommandHistory` of highlight commands, loading the
result into a fresh history with `load_from_dict`, and serialising again
yields the identical serialised value (hence byte-identical output from the
deterministic encoder). -/
theorem c7_serialization_idempotent (h : CommandHistory) :
    (CommandHistory.load_from_dict h.to_dict).to_dict = h.to_dict := by
  rcases h with ⟨us, rs, m⟩
  simp only [CommandHistory.to_dict, CommandHistory.load_from_dict]
  rw [loadStack_roundtrip, loadStack_roundtrip]

/-- A first execution on a command with an empty pending snapshot produces
exactly the `appliedAt` state and appends its records to the store. -/
theorem execute_applied (cmd : HighlightCommand) (doc : PDFDocument)
    (h : cmd.removed_annotations = []) :
    cmd.execute doc = (appliedAt doc.annotations.length cmd,
      ⟨doc.annotations ++ newRecords cmd⟩, true) := by
  rw [execute_of_removed_empty cmd doc h]
  rfl

/-- The stack `appliedStack` has one entry per submitted command. -/
theorem appliedStack_length (cmds : List HighlightCommand) :
    ∀ n, (appliedStack n cmds).length = cmds.length := by
  induction cmds with
  | nil => intro n; rfl
  | cons c rest ih => intro n; simp [appliedStack, ih]

/-- Pushing through the capped step and then dropping from the front is the
same as pushing first and dropping one more from the front, when the stack
starts within the cap. -/
theorem pushCap_drop (us : List HighlightCommand) (c : HighlightCommand)
    (m k : ℕ) (S : List HighlightCommand) (h : us.length ≤ m) :
    (pushCap us c m ++ S).drop ((pushCap us c m).length + k - m)
      = (us ++ c :: S).drop (us.length + k + 1 - m) := by
  have hlen : (us ++ [c]).length = us.length + 1 := by simp
  simp only [pushCap]
  split
  · next hgt =>
    rw [hlen] at hgt
    rw [List.length_drop, hlen]
    rw [← List.drop_append_of_le_length (by rw [hlen]; omega)]
    rw [List.drop_drop]
    rw [show us ++ c :: S = (us ++ [c]) ++ S by simp]
    congr 1
    omega
  · next hng =>
    rw [hlen] at hng
    rw [hlen]
    rw [show us ++ [c] ++ S = us ++ c :: S by simp]
    congr 1
    omega

/-- Closed form of submitting a list of commands with empty pending
snapshots through `CommandHistory.execute`: every command succeeds, the redo
stack ends empty (unless no command was submitted), the undo stack is the
applied command states with the overflow dropped from the front, and the
store receives every command's records in order. -/
theorem execAll_fresh (cmds : List HighlightCommand) :
    ∀ (us rs : List HighlightCommand) (m : ℕ) (doc : PDFDocument),
    (∀ c ∈ cmds, c.removed_annotations = []) →
    us.length ≤ m →
    execAll (⟨us, rs, m⟩, doc) cmds =
      (⟨(us ++ appliedStack doc.annotations.length cmds).drop
          (us.length + cmds.length - m),
        if cmds.length = 0 then rs else [], m⟩,
       ⟨doc.annotations ++ (cmds.map newRecords).flatten⟩) := by
  induction cmds with
  | nil =>
    intro us rs m doc _ hle
    have h0 : us.length - m = 0 := by omega
    simp [execAll, appliedStack, h0]
  | cons c rest ih =>
    intro us rs m doc hfresh hle
    simp only [execAll]
    rw [history_execute_spec]
    rw [execute_applied c doc (hfresh c (by simp))]
    rw [ih (pushCap us (appliedAt doc.annotations.length c) m) [] m
      ⟨doc.annotations ++ newRecords c⟩
      (fun c' hc' => hfresh c' (by simp [hc']))
      (pushCap_le _ _ _ hle)]
    have hnlen : (PDFDocument.mk (doc.annotations ++ newRecords c)).annotations.length
        = doc.annotations.length + c.rects.length := by
      simp [newRecords]
    rw [hnlen]
    rw [pushCap_drop us (appliedAt doc.annotations.length c) m rest.length _ hle]
    simp [appliedStack, List.append_assoc, Nat.add_assoc]

/-- One history operation preserves the depth cap on both stacks (the cap
itself is never changed by an operation). -/
theorem applyOp_invariant (s : CommandHistory × PDFDocument) (op : HistOp)
    (h1 : s.1.undo_stack.length ≤ s.1.max_stack_size)
    (h2 : s.1.redo_stack.length ≤ s.1.max_stack_size) :
    (applyOp s op).1.undo_stack.length ≤ (applyOp s op).1.max_stack_size ∧
    (applyOp s op).1.redo_stack.length ≤ (applyOp s op).1.max_stack_size := by
  cases op with
  | exec c =>
    simp only [applyOp]
    rw [history_execute_spec]
    exact ⟨pushCap_le _ _ _ h1, by simp⟩
  | undo =>
    simp only [applyOp, CommandHistory.undo]
    by_cases hnil : s.1.undo_stack = []
    · rw [if_pos hnil]
      exact ⟨h1, h2⟩
    · rw [if_neg hnil]
      split
      · refine ⟨?_, pushCap_le _ _ _ h2⟩
        show s.1.undo_stack.dropLast.length ≤ s.1.max_stack_size
        rw [List.length_dropLast]
        omega
      · refine ⟨?_, h2⟩
        show s.1.undo_stack.dropLast.length ≤ s.1.max_stack_size
        rw [List.length_dropLast]
        omega
  | redo =>
    simp only [applyOp, CommandHistory.redo]
    by_cases hnil : s.1.redo_stack = []
    · rw [if_pos hnil]
      exact ⟨h1, h2⟩
    · rw [if_neg hnil]
      split
      · refine ⟨pushCap_le _ _ _ h1, ?_⟩
        show s.1.redo_stack.dropLast.length ≤ s.1.max_stack_size
        rw [List.length_dropLast]
        omega
      · refine ⟨h1, ?_⟩
        show s.1.redo_stack.dropLast.length ≤ s.1.max_stack_size
        rw [List.length_dropLast]
        omega

/-- Any sequence of history operations preserves the depth cap on both
stacks. -/
theorem applyOps_invariant (ops : List HistOp) :
    ∀ s : CommandHistory × PDFDocument,
    s.1.undo_stack.length ≤ s.1.max_stack_size →
    s.1.redo_stack.length ≤ s.1.max_stack_size →
    (applyOps s ops).1.undo_stack.length ≤ (applyOps s ops).1.max_stack_size ∧
    (applyOps s ops).1.redo_stack.length ≤ (applyOps s ops).1.max_stack_size := by
  induction ops with
  | nil => intro s h1 h2; exact ⟨h1, h2⟩
  | cons op rest ih =>
    intro s h1 h2
    have hstep := applyOp_invariant s op h1 h2
    exact ih (applyOp s op) hstep.1 hstep.2

/-- C6: submitting `max_stack_size + 1` commands with empty pending
snapshots through `CommandHistory.execute`, starting from an empty undo
stack, leaves the undo stack at exactly `max_stack_size` entries, equal to
the applied states of all but the first (oldest) command — the oldest is
evicted — while the store still carries every command's records, the first
command's included; and, in general, starting from any state within the
cap, no sequence of execute/undo/redo operations ever pushes either stack
beyond `max_stack_size`. -/
theorem c6_depth_cap (m : ℕ) (doc : PDFDocument)
    (rs cmds : List HighlightCommand)
    (hfresh : ∀ c ∈ cmds, c.removed_annotations = [])
    (hlen : cmds.length = m + 1) :
    ((execAll (⟨[], rs, m⟩, doc) cmds).1.undo_stack.length = m ∧
     (execAll (⟨[], rs, m⟩, doc) cmds).1.undo_stack
        = (appliedStack doc.annotations.length cmds).drop 1 ∧
     (execAll (⟨[], rs, m⟩, doc) cmds).2.annotations
        = doc.annotations ++ (cmds.map newRecords).flatten) ∧
    ∀ (h : CommandHistory) (d : PDFDocument) (ops : List HistOp),
      h.undo_stack.length ≤ h.max_stack_size →
      h.redo_stack.length ≤ h.max_stack_size →
      (applyOps (h, d) ops).1.undo_stack.length
          ≤ (applyOps (h, d) ops).1.max_stack_size ∧
      (applyOps (h, d) ops).1.redo_stack.length
          ≤ (applyOps (h, d) ops).1.max_stack_size := by
  constructor
  · rw [execAll_fresh cmds [] rs m doc hfresh (by simp)]
    refine ⟨?_, ?_, rfl⟩
    · show (([] ++ appliedStack doc.annotations.length cmds).drop
          (([] : List HighlightCommand).length + cmds.length - m)).length = m
      rw [List.nil_append, List.length_drop, appliedStack_length cmds, hlen]
      simp only [List.length_nil]
      omega
    · show ([] ++ appliedStack doc.annotations.length cmds).drop
          (([] : List HighlightCommand).length + cmds.length - m)
        = (appliedStack doc.annotations.length cmds).drop 1
      rw [List.nil_append]
      congr 1
      simp only [List.length_nil]
      omega
  · intro h d ops h1 h2
    exact applyOps_invariant ops (h, d) h1 h2

/-- First fresh sample command for the depth-cap witness. -/
def w1 : HighlightCommand := ⟨[⟨0, 0, 1, 1⟩], 0, sColor, [], []⟩

/-- Second fresh sample command for the depth-cap witness. -/
def w2 : HighlightCommand := ⟨[⟨2, 2, 3, 3⟩], 0, sColor, [], []⟩

/-- Witness for C6 with cap 1 and two distinct fresh commands. -/
theorem c6_witness :
    (∀ c ∈ [w1, w2], c.removed_annotations = []) ∧
    ([w1, w2].length = 1 + 1) ∧
    ((execAll (⟨[], [], 1⟩, ⟨[]⟩) [w1, w2]).1.undo_stack.length = 1 ∧
     (execAll (⟨[], [], 1⟩, ⟨[]⟩) [w1, w2]).1.undo_stack
        = (appliedStack (⟨[]⟩ : PDFDocument).annotations.length [w1, w2]).drop 1 ∧
     (execAll (⟨[], [], 1⟩, ⟨[]⟩) [w1, w2]).2.annotations
        = (⟨[]⟩ : PDFDocument).annotations ++ ([w1, w2].map newRecords).flatten) :=
  ⟨by decide, by decide, (c6_depth_cap 1 ⟨[]⟩ [] [w1, w2] (by decide) (by decide)).1⟩

/-- While every processed hit-box stays within half a line height of the
anchor, the grouping loop only extends the current line. -/
theorem groupRun_walk (zoom : ℚ) (t : List Block) :
    ∀ (rest curLine : List Block) (cy : ℤ) (acc : List Rect),
    (∀ b ∈ t, (((pyInt b.y - cy).natAbs : ℚ)) ≤ b.height * (1 / 2)) →
    groupRun zoom (t ++ rest) curLine (some cy) acc
      = groupRun zoom rest (curLine ++ t) (some cy) acc := by
  induction t with
  | nil =>
    intro rest curLine cy acc _
    simp
  | cons b t' ih =>
    intro rest curLine cy acc hall
    have hb : ¬ ((((pyInt b.y - cy).natAbs : ℚ)) > b.height * (1 / 2)) :=
      not_lt.mpr (hall b (by simp))
    rw [List.cons_append, groupRun]
    simp only [decide_eq_true_eq]
    rw [if_neg hb]
    rw [ih rest (curLine ++ [b]) cy acc (fun x hx => hall x (by simp [hx]))]
    simp [List.append_assoc]

/-- Running the grouping loop to the end of the range over boxes that all
stay within the anchor's line flushes a single rectangle covering the
current line extended by those boxes. -/
theorem groupRun_sameline (zoom : ℚ) (t curLine : List Block) (cy : ℤ)
    (acc : List Rect) (hcl : curLine ≠ [])
    (hall : ∀ b ∈ t, (((pyInt b.y - cy).natAbs : ℚ)) ≤ b.height * (1 / 2)) :
    groupRun zoom t curLine (some cy) acc
      = acc ++ [lineRect (curLine ++ t) zoom] := by
  have hw := groupRun_walk zoom t [] curLine cy acc hall
  rw [List.append_nil] at hw
  rw [hw, groupRun, if_neg (by simp [hcl])]

/-- C9: for hit-boxes laid out as two lines — every box of the first line
at y = 0 with height 10, every box of the second at y = 12 with height 10 —
selecting the full character range yields exactly two rectangles, one per
line, each spanning from the minimum x to the maximum x + width of its
line's boxes, taking the first box's y and height, with every coordinate
divided by the zoom factor. -/
theorem c9_two_line_grouping (l1 l2 : List Block) (zoom : ℚ)
    (h1 : l1 ≠ []) (h2 : l2 ≠ [])
    (hy1 : ∀ b ∈ l1, b.y = 0 ∧ b.height = 10)
    (hy2 : ∀ b ∈ l2, b.y = 12 ∧ b.height = 10) :
    highlightRects (l1 ++ l2) 0 ((l1 ++ l2).length - 1) zoom
      = [⟨listMin (l1.map Block.x) / zoom, 0 / zoom,
          listMax (l1.map Block.xend) / zoom, 10 / zoom⟩,
         ⟨listMin (l2.map Block.x) / zoom, 12 / zoom,
          listMax (l2.map Block.xend) / zoom, 22 / zoom⟩] := by
  have hpy0 : pyInt (0 : ℚ) = 0 := by
    rw [pyInt, if_neg (by norm_num)]
    norm_num
  have hpy12 : pyInt (12 : ℚ) = 12 := by
    rw [pyInt, if_neg (by norm_num)]
    norm_num
  have hpos : 0 < (l1 ++ l2).length := by
    rcases l1 with _ | ⟨x, xs⟩
    · exact absurd rfl h1
    · simp
  have hslice : ((l1 ++ l2).take (max 0 ((l1 ++ l2).length - 1) + 1)).drop
      (min 0 ((l1 ++ l2).length - 1)) = l1 ++ l2 := by
    rw [Nat.zero_min, Nat.zero_max]
    rw [show (l1 ++ l2).length - 1 + 1 = (l1 ++ l2).length by omega]
    rw [List.take_length, List.drop_zero]
  show groupRun zoom (((l1 ++ l2).take (max 0 ((l1 ++ l2).length - 1) + 1)).drop
      (min 0 ((l1 ++ l2).length - 1))) [] none [] = _
  rw [hslice]
  rcases l1 with _ | ⟨b1, t1⟩
  · exact absurd rfl h1
  rcases l2 with _ | ⟨b2, t2⟩
  · exact absurd rfl h2
  rcases hy1 b1 (by simp) with ⟨hb1y, hb1h⟩
  rcases hy2 b2 (by simp) with ⟨hb2y, hb2h⟩
  have step1 : groupRun zoom ((b1 :: t1) ++ (b2 :: t2)) [] none []
      = groupRun zoom (t1 ++ (b2 :: t2)) [b1] (some 0) [] := by
    show groupRun zoom (t1 ++ (b2 :: t2)) [b1] (some (pyInt b1.y)) [] = _
    rw [hb1y, hpy0]
  rw [step1]
  rw [groupRun_walk zoom t1 (b2 :: t2) [b1] 0 []
    (fun b hb => by
      rcases hy1 b (by simp [hb]) with ⟨hy, hh⟩
      rw [hy, hpy0, hh]
      norm_num)]
  have step2 : groupRun zoom (b2 :: t2) ([b1] ++ t1) (some 0) []
      = groupRun zoom t2 [b2] (some 12) [lineRect ([b1] ++ t1) zoom] := by
    rw [groupRun, hb2y, hb2h, hpy12]
    simp only [decide_eq_true_eq]
    rw [if_pos (by norm_num)]
    rw [if_neg (by simp : ¬(([b1] ++ t1 : List Block) = []))]
    simp
  rw [step2]
  rw [groupRun_sameline zoom t2 [b2] 12 [lineRect ([b1] ++ t1) zoom] (by simp)
    (fun b hb => by
      rcases hy2 b (by simp [hb]) with ⟨hy, hh⟩
      rw [hy, hpy12, hh]
      norm_num)]
  simp only [List.singleton_append, List.nil_append]
  rw [lineRect, lineRect]
  rw [hb1y, hb1h, hb2y, hb2h]
  norm_num

/-- First witness line: two boxes at y = 0, height 10. -/
def wl1 : List Block := [⟨0, 0, 3, 10⟩, ⟨3, 0, 3, 10⟩]

/-- Second witness line: two boxes at y = 12, height 10. -/
def wl2 : List Block := [⟨0, 12, 3, 10⟩, ⟨3, 12, 4, 10⟩]

/-- Witness for C9 at a concrete two-line layout with zoom factor 2. -/
theorem c9_witness :
    wl1 ≠ [] ∧ wl2 ≠ [] ∧
    (∀ b ∈ wl1, b.y = 0 ∧ b.height = 10) ∧
    (∀ b ∈ wl2, b.y = 12 ∧ b.height = 10) ∧
    highlightRects (wl1 ++ wl2) 0 ((wl1 ++ wl2).length - 1) 2
      = [⟨listMin (wl1.map Block.x) / 2, 0 / 2,
          listMax (wl1.map Block.xend) / 2, 10 / 2⟩,
         ⟨listMin (wl2.map Block.x) / 2, 12 / 2,
          listMax (wl2.map Block.xend) / 2, 22 / 2⟩] :=
  ⟨by decide, by decide, by decide, by decide,
   c9_two_line_grouping wl1 wl2 2 (by decide) (by decide) (by decide) (by decide)⟩
